import Mathlib

/-!
Verification of the RC-circuit pacemaker simulation model (`model.py`).

The Python module is embedded shallowly over the reals:
* `np.linspace` becomes `linspace` (lists of evenly spaced reals);
* `single_pulse`, `adaptive_feedback`, `simulate_multiple_beats` and
  `validate_parameters` are translated function by function;
* the per-beat call `np.random.uniform(R_min, R_max)` in arrhythmia mode is
  modelled by an explicit random source `rng : ℕ → ℝ` giving the draw of each
  beat index, so that dependence on randomness is an explicit argument;
* Python exceptions are modelled with `Except PacemakerError`: the model
  functions contain no `raise`, and the sole failing path is numpy's
  `ValueError` from `np.concatenate([])` when `num_beats = 0`.
-/

namespace Pacemaker

/-- `np.linspace start stop num`: `num` evenly spaced samples from `start` to
`stop`, both endpoints included (sample `i` is `start + (stop-start)·i/(num-1)`). -/
noncomputable def linspace (start stop : ℝ) (num : ℕ) : List ℝ :=
  (List.range num).map fun i : ℕ =>
    start + (stop - start) * (i : ℝ) / ((num : ℝ) - 1)

/-- `single_pulse(V0, R, C, t_max=0.05, num_points=200)` from `model.py`:
time grid `t = linspace(0, t_max, num_points)` and capacitor voltage
`Vc = V0 * exp(-t / (R*C))`, returned as the pair `(t, Vc)`. -/
noncomputable def single_pulse (V0 R C : ℝ) (t_max : ℝ := 0.05)
    (num_points : ℕ := 200) : List ℝ × List ℝ :=
  let tau := R * C
  let t := linspace 0 t_max num_points
  let Vc := t.map fun x => V0 * Real.exp (-x / tau)
  (t, Vc)

/-- `adaptive_feedback(V0_target, R, C, V_min=1.0)` from `model.py`:
returns `max(V0_target, V_min * e)`.  `R` and `C` are accepted but unused. -/
noncomputable def adaptive_feedback (V0_target R C : ℝ) (V_min : ℝ := 1) : ℝ :=
  let V0_min_required := V_min * Real.exp 1
  max V0_target V0_min_required

/-- The dict returned by `validate_parameters` in `model.py`; the numpy
booleans become `Prop` fields. -/
structure ValidationResult where
  tau_ms : ℝ
  V_at_tau : ℝ
  is_effective : Prop
  is_safe : Prop
  pulse_duration_ms : ℝ
  is_duration_ok : Prop
  overall_valid : Prop

/-- `validate_parameters(V0, R, C, V_min)` from `model.py`. -/
noncomputable def validate_parameters (V0 R C V_min : ℝ) : ValidationResult :=
  let tau := R * C
  let V_at_tau := V0 * Real.exp (-1)
  let is_effective := V_at_tau ≥ V_min
  let is_safe := V0 ≤ 15.0
  let pulse_duration := 3 * tau * 1000
  let is_duration_ok := 0.5 ≤ pulse_duration ∧ pulse_duration ≤ 2.0
  { tau_ms := tau * 1000
    V_at_tau := V_at_tau
    is_effective := is_effective
    is_safe := is_safe
    pulse_duration_ms := pulse_duration
    is_duration_ok := is_duration_ok
    overall_valid := is_effective ∧ is_safe ∧ is_duration_ok }

/-- The list is evenly spaced: consecutive entries differ by `step`. -/
def evenSteps (l : List ℝ) (step : ℝ) : Prop :=
  ∀ i : ℕ, i + 1 < l.length → l.getD (i + 1) 0 - l.getD i 0 = step

/-- Every voltage sample is `V0 · exp(-t/τ)` of the matching time sample. -/
def expCurve (t V : List ℝ) (V0 tau : ℝ) : Prop :=
  ∀ i : ℕ, i < t.length → V.getD i 0 = V0 * Real.exp (-(t.getD i 0) / tau)

/-- The list is strictly decreasing along its indices. -/
def strictDecr (l : List ℝ) : Prop :=
  ∀ i : ℕ, i + 1 < l.length → l.getD (i + 1) 0 < l.getD i 0

/-- The tuple returned by `simulate_multiple_beats` in `model.py`:
`(t_total, V_total, R_values, V0_used, beat_boundaries)`. -/
structure SimulationResult where
  t_total : List ℝ
  V_total : List ℝ
  R_values : List ℝ
  V0_used : List ℝ
  beat_boundaries : List (ℕ × ℕ)

/-- The loop state of `simulate_multiple_beats`: the accumulator lists
`t_global`/`V_global` (lists of per-pulse arrays, concatenated at the end),
the already-extended `R_values`/`V0_used`/`beat_boundaries`, and the scalars
`t_offset` and `total_index`. -/
structure SimState where
  t_global : List (List ℝ)
  V_global : List (List ℝ)
  R_values : List ℝ
  V0_used : List ℝ
  beat_boundaries : List (ℕ × ℕ)
  t_offset : ℝ
  total_index : ℕ

/-- State before the first loop iteration of `simulate_multiple_beats`. -/
noncomputable def initState : SimState :=
  { t_global := []
    V_global := []
    R_values := []
    V0_used := []
    beat_boundaries := []
    t_offset := 0
    total_index := 0 }

/-- One iteration of the `for beat in range(num_beats)` loop in
`simulate_multiple_beats`.  `rng beat` models the value drawn by
`np.random.uniform(R_min, R_max)` at that iteration (only consumed when
`arrhythmia_mode` is set). -/
noncomputable def beatStep (V0_user R_base C interval : ℝ) (use_feedback : Bool)
    (V_min : ℝ) (arrhythmia_mode : Bool) (rng : ℕ → ℝ) (beat : ℕ)
    (s : SimState) : SimState :=
  let R_current := if arrhythmia_mode then rng beat else R_base
  let V0_current :=
    if use_feedback then adaptive_feedback V0_user R_current C V_min else V0_user
  let p := single_pulse V0_current R_current C
  let t_pulse := p.1
  let V_pulse := p.2
  let t_pulse_shifted := t_pulse.map fun x => x + s.t_offset
  let pulse_length := t_pulse.length
  let start_idx := s.total_index
  let end_idx := s.total_index + pulse_length
  { t_global := s.t_global ++ [t_pulse_shifted]
    V_global := s.V_global ++ [V_pulse]
    R_values := s.R_values ++ List.replicate pulse_length R_current
    V0_used := s.V0_used ++ List.replicate pulse_length V0_current
    beat_boundaries := s.beat_boundaries ++ [(start_idx, end_idx)]
    t_offset := s.t_offset + interval
    total_index := end_idx }

/-- The loop of `simulate_multiple_beats` run for the first `n` beats. -/
noncomputable def runBeats (V0_user R_base C interval : ℝ) (use_feedback : Bool)
    (V_min : ℝ) (arrhythmia_mode : Bool) (rng : ℕ → ℝ) : ℕ → SimState
  | 0 => initState
  | n + 1 =>
    beatStep V0_user R_base C interval use_feedback V_min arrhythmia_mode rng n
      (runBeats V0_user R_base C interval use_feedback V_min arrhythmia_mode rng n)

/-- `simulate_multiple_beats` from `model.py`.  `R_min`/`R_max` are accepted
as in the source but enter the computation only through the random draws,
which are modelled by `rng`; `np.concatenate` becomes `List.flatten`. -/
noncomputable def simulate_multiple_beats (V0_user R_base C : ℝ) (num_beats : ℕ)
    (interval : ℝ) (use_feedback : Bool) (V_min : ℝ) (arrhythmia_mode : Bool)
    (R_min R_max : ℝ) (rng : ℕ → ℝ) : SimulationResult :=
  let s := runBeats V0_user R_base C interval use_feedback V_min arrhythmia_mode
    rng num_beats
  { t_total := s.t_global.flatten
    V_total := s.V_global.flatten
    R_values := s.R_values
    V0_used := s.V0_used
    beat_boundaries := s.beat_boundaries }

/-- The Python exceptions relevant to the model: the spec's `InvalidParameter`
and numpy's `ValueError` (raised by `np.concatenate` on an empty list). -/
inductive PacemakerError
  | invalidParameter
  | valueError
deriving DecidableEq

/-- `single_pulse` viewed as a possibly-raising Python call.  The source body
contains no `raise` and no input check, and its numpy operations never raise,
so every call returns normally. -/
noncomputable def single_pulse_run (V0 R C t_max : ℝ) (num_points : ℕ) :
    Except PacemakerError (List ℝ × List ℝ) :=
  Except.ok (single_pulse V0 R C t_max num_points)

/-- `simulate_multiple_beats` viewed as a possibly-raising Python call.  The
source body contains no `raise` and no input check; the only raising path is
`np.concatenate(t_global)` with `t_global == []`, i.e. `num_beats = 0`, where
numpy raises `ValueError` (after the loop has already run). -/
noncomputable def simulate_multiple_beats_run (V0_user R_base C : ℝ)
    (num_beats : ℕ) (interval : ℝ) (use_feedback : Bool) (V_min : ℝ)
    (arrhythmia_mode : Bool) (R_min R_max : ℝ) (rng : ℕ → ℝ) :
    Except PacemakerError SimulationResult :=
  if num_beats = 0 then Except.error PacemakerError.valueError
  else Except.ok (simulate_multiple_beats V0_user R_base C num_beats interval
    use_feedback V_min arrhythmia_mode R_min R_max rng)

/-- `true` iff the call returned normally (did not raise). -/
def exceptOk {ε α : Type _} : Except ε α → Bool
  | Except.ok _ => true
  | Except.error _ => false

/-- Every element of the list equals `c`. -/
def allEq (l : List ℝ) (c : ℝ) : Prop := ∀ x ∈ l, x = c

/-- Every element of the list is at least `c`. -/
def allGE (l : List ℝ) (c : ℝ) : Prop := ∀ x ∈ l, c ≤ x

/-- The boundary list consists of `N` contiguous half-open ranges of width
`w`: entry `i` is `(w·i, w·i + w)`, so they tile `[0, w·N)` in order. -/
def boundariesAre (bs : List (ℕ × ℕ)) (w N : ℕ) : Prop :=
  bs.length = N ∧ ∀ i : ℕ, i < N → bs.getD i (0, 0) = (w * i, w * i + w)

/-- Sample `w·i` of the list (the first sample of beat `i` when beats are `w`
wide) equals `i · interval`, for every `i < N`. -/
def firstSamplesAt (t : List ℝ) (w N : ℕ) (interval : ℝ) : Prop :=
  ∀ i : ℕ, i < N → t.getD (w * i) 0 = i * interval

theorem linspace_length (a b : ℝ) (n : ℕ) : (linspace a b n).length = n := by
  unfold linspace
  rw [List.length_map, List.length_range]

theorem linspace_getD (a b : ℝ) (n i : ℕ) (h : i < n) :
    (linspace a b n).getD i 0 = a + (b - a) * i / ((n : ℝ) - 1) := by
  have hl : i < (linspace a b n).length := by rwa [linspace_length]
  rw [List.getD_eq_getElem _ _ hl]
  simp only [linspace, List.getElem_map, List.getElem_range]

theorem single_pulse_time_length (V0 R C t_max : ℝ) (n : ℕ) :
    (single_pulse V0 R C t_max n).1.length = n :=
  linspace_length 0 t_max n

theorem single_pulse_voltage_length (V0 R C t_max : ℝ) (n : ℕ) :
    (single_pulse V0 R C t_max n).2.length = n := by
  show ((linspace 0 t_max n).map _).length = n
  rw [List.length_map, linspace_length]

theorem single_pulse_time_getD (V0 R C t_max : ℝ) (n i : ℕ) (h : i < n) :
    (single_pulse V0 R C t_max n).1.getD i 0 = t_max * i / ((n : ℝ) - 1) := by
  show (linspace 0 t_max n).getD i 0 = _
  rw [linspace_getD _ _ _ _ h]
  ring

theorem single_pulse_voltage_getD (V0 R C t_max : ℝ) (n i : ℕ) (h : i < n) :
    (single_pulse V0 R C t_max n).2.getD i 0 =
      V0 * Real.exp (-((single_pulse V0 R C t_max n).1.getD i 0) / (R * C)) := by
  have h1 : i < (single_pulse V0 R C t_max n).1.length := by
    rwa [single_pulse_time_length]
  have h2 : i < (single_pulse V0 R C t_max n).2.length := by
    rwa [single_pulse_voltage_length]
  rw [List.getD_eq_getElem _ _ h2, List.getD_eq_getElem _ _ h1]
  simp only [single_pulse, List.getElem_map]

theorem cast_n_sub_one_pos {n : ℕ} (hn : 2 ≤ n) : (0 : ℝ) < (n : ℝ) - 1 := by
  have : (2 : ℝ) ≤ (n : ℝ) := by exact_mod_cast hn
  linarith

theorem map_add_getD_zero (l : List ℝ) (c : ℝ) (h : 0 < l.length) :
    (l.map fun x => x + c).getD 0 0 = l.getD 0 0 + c := by
  have hm : 0 < (l.map fun x => x + c).length := by rwa [List.length_map]
  rw [List.getD_eq_getElem _ _ hm, List.getElem_map, List.getD_eq_getElem _ _ h]

theorem runBeats_t_offset (V0u Rb C interval : ℝ) (fb : Bool) (Vm : ℝ)
    (arr : Bool) (rng : ℕ → ℝ) (n : ℕ) :
    (runBeats V0u Rb C interval fb Vm arr rng n).t_offset = n * interval := by
  induction n with
  | zero => simp [runBeats, initState]
  | succ n ih =>
    simp only [runBeats, beatStep, ih]
    push_cast
    ring

theorem runBeats_total_index (V0u Rb C interval : ℝ) (fb : Bool) (Vm : ℝ)
    (arr : Bool) (rng : ℕ → ℝ) (n : ℕ) :
    (runBeats V0u Rb C interval fb Vm arr rng n).total_index = 200 * n := by
  induction n with
  | zero => simp [runBeats, initState]
  | succ n ih =>
    simp only [runBeats, beatStep, ih, single_pulse_time_length]
    ring

theorem runBeats_boundaries (V0u Rb C interval : ℝ) (fb : Bool) (Vm : ℝ)
    (arr : Bool) (rng : ℕ → ℝ) (n : ℕ) :
    (runBeats V0u Rb C interval fb Vm arr rng n).beat_boundaries =
      (List.range n).map fun i => (200 * i, 200 * i + 200) := by
  induction n with
  | zero => simp [runBeats, initState]
  | succ n ih =>
    simp only [runBeats, beatStep, ih, single_pulse_time_length,
      runBeats_total_index, List.range_succ, List.map_append, List.map_cons,
      List.map_nil]

theorem runBeats_R_length (V0u Rb C interval : ℝ) (fb : Bool) (Vm : ℝ)
    (arr : Bool) (rng : ℕ → ℝ) (n : ℕ) :
    (runBeats V0u Rb C interval fb Vm arr rng n).R_values.length = 200 * n := by
  induction n with
  | zero => simp [runBeats, initState]
  | succ n ih =>
    simp only [runBeats, beatStep, List.length_append, List.length_replicate,
      ih, single_pulse_time_length]
    ring

theorem runBeats_V0_length (V0u Rb C interval : ℝ) (fb : Bool) (Vm : ℝ)
    (arr : Bool) (rng : ℕ → ℝ) (n : ℕ) :
    (runBeats V0u Rb C interval fb Vm arr rng n).V0_used.length = 200 * n := by
  induction n with
  | zero => simp [runBeats, initState]
  | succ n ih =>
    simp only [runBeats, beatStep, List.length_append, List.length_replicate,
      ih, single_pulse_time_length]
    ring

theorem runBeats_t_flatten_length (V0u Rb C interval : ℝ) (fb : Bool) (Vm : ℝ)
    (arr : Bool) (rng : ℕ → ℝ) (n : ℕ) :
    (runBeats V0u Rb C interval fb Vm arr rng n).t_global.flatten.length =
      200 * n := by
  induction n with
  | zero => simp [runBeats, initState]
  | succ n ih =>
    simp only [runBeats, beatStep, List.flatten_append, List.flatten_cons,
      List.flatten_nil, List.append_nil, List.length_append, List.length_map,
      ih, single_pulse_time_length]
    ring

theorem runBeats_V_flatten_length (V0u Rb C interval : ℝ) (fb : Bool) (Vm : ℝ)
    (arr : Bool) (rng : ℕ → ℝ) (n : ℕ) :
    (runBeats V0u Rb C interval fb Vm arr rng n).V_global.flatten.length =
      200 * n := by
  induction n with
  | zero => simp [runBeats, initState]
  | succ n ih =>
    simp only [runBeats, beatStep, List.flatten_append, List.flatten_cons,
      List.flatten_nil, List.append_nil, List.length_append,
      ih, single_pulse_voltage_length]
    ring

theorem runBeats_t_first (V0u Rb C interval : ℝ) (fb : Bool) (Vm : ℝ)
    (arr : Bool) (rng : ℕ → ℝ) (n : ℕ) :
    ∀ i : ℕ, i < n →
      (runBeats V0u Rb C interval fb Vm arr rng n).t_global.flatten.getD
        (200 * i) 0 = i * interval := by
  induction n with
  | zero => intro i hi; omega
  | succ n ih =>
    intro i hi
    simp only [runBeats, beatStep, List.flatten_append, List.flatten_cons,
      List.flatten_nil, List.append_nil]
    rcases Nat.lt_or_ge i n with h | h
    · have hlt : 200 * i <
          (runBeats V0u Rb C interval fb Vm arr rng n).t_global.flatten.length := by
        rw [runBeats_t_flatten_length]
        omega
      rw [List.getD_append _ _ _ _ hlt]
      exact ih i h
    · have hin : i = n := by omega
      subst hin
      have hge : (runBeats V0u Rb C interval fb Vm arr rng i).t_global.flatten.length
          ≤ 200 * i := by
        rw [runBeats_t_flatten_length]
      rw [List.getD_append_right _ _ _ _ hge, runBeats_t_flatten_length]
      have hz : 200 * i - 200 * i = 0 := by omega
      rw [hz]
      have hlen : 0 < ((single_pulse
          (if fb = true then
            adaptive_feedback V0u (if arr = true then rng i else Rb) C Vm
           else V0u) (if arr = true then rng i else Rb) C).1).length := by
        rw [single_pulse_time_length]
        omega
      rw [map_add_getD_zero _ _ hlen,
        single_pulse_time_getD _ _ _ _ _ _ (show 0 < 200 by omega),
        runBeats_t_offset]
      simp

theorem runBeats_V0_ge (V0u Rb C interval : ℝ) (Vm : ℝ) (arr : Bool)
    (rng : ℕ → ℝ) (n : ℕ) :
    ∀ x ∈ (runBeats V0u Rb C interval true Vm arr rng n).V0_used,
      Vm * Real.exp 1 ≤ x := by
  induction n with
  | zero => simp [runBeats, initState]
  | succ n ih =>
    intro x hx
    simp only [runBeats, beatStep, List.mem_append] at hx
    rcases hx with hx | hx
    · exact ih x hx
    · have hxe := List.eq_of_mem_replicate hx
      rw [hxe]
      simp only [if_true]
      exact le_max_right _ _

theorem runBeats_V0_eq (V0u Rb C interval : ℝ) (Vm : ℝ) (arr : Bool)
    (rng : ℕ → ℝ) (n : ℕ) :
    ∀ x ∈ (runBeats V0u Rb C interval false Vm arr rng n).V0_used, x = V0u := by
  induction n with
  | zero => simp [runBeats, initState]
  | succ n ih =>
    intro x hx
    simp only [runBeats, beatStep, List.mem_append] at hx
    rcases hx with hx | hx
    · exact ih x hx
    · have hxe := List.eq_of_mem_replicate hx
      simpa using hxe

theorem runBeats_R_eq (V0u Rb C interval : ℝ) (fb : Bool) (Vm : ℝ)
    (rng : ℕ → ℝ) (n : ℕ) :
    ∀ x ∈ (runBeats V0u Rb C interval fb Vm false rng n).R_values, x = Rb := by
  induction n with
  | zero => simp [runBeats, initState]
  | succ n ih =>
    intro x hx
    simp only [runBeats, beatStep, List.mem_append] at hx
    rcases hx with hx | hx
    · exact ih x hx
    · have hxe := List.eq_of_mem_replicate hx
      simpa using hxe

theorem runBeats_rng_irrel (V0u Rb C interval : ℝ) (fb : Bool) (Vm : ℝ)
    (rng1 rng2 : ℕ → ℝ) (n : ℕ) :
    runBeats V0u Rb C interval fb Vm false rng1 n =
      runBeats V0u Rb C interval fb Vm false rng2 n := by
  induction n with
  | zero => rfl
  | succ n ih => simp [runBeats, beatStep, ih]

end Pacemaker

namespace Pacemaker

/-- C1: `single_pulse(V0, R, C, t_max, num_points)` with `R>0`, `C>0`,
`t_max>0`, `num_points ≥ 2` returns `num_points` evenly spaced time values
over `[0, t_max]` including both endpoints, and every voltage sample equals
`V0 · exp(-time[i]/(R·C))`. -/
theorem single_pulse_spec (V0 R C t_max : ℝ) (n : ℕ)
    (hR : 0 < R) (hC : 0 < C) (ht : 0 < t_max) (hn : 2 ≤ n) :
    (single_pulse V0 R C t_max n).1.length = n ∧
    (single_pulse V0 R C t_max n).2.length = n ∧
    (single_pulse V0 R C t_max n).1.getD 0 0 = 0 ∧
    (single_pulse V0 R C t_max n).1.getD (n - 1) 0 = t_max ∧
    evenSteps (single_pulse V0 R C t_max n).1 (t_max / ((n : ℝ) - 1)) ∧
    expCurve (single_pulse V0 R C t_max n).1 (single_pulse V0 R C t_max n).2
      V0 (R * C) := by
  have hne : ((n : ℝ) - 1) ≠ 0 := ne_of_gt (cast_n_sub_one_pos hn)
  refine ⟨single_pulse_time_length V0 R C t_max n,
    single_pulse_voltage_length V0 R C t_max n, ?_, ?_, ?_, ?_⟩
  · rw [single_pulse_time_getD V0 R C t_max n 0 (by omega)]
    simp
  · rw [single_pulse_time_getD V0 R C t_max n (n - 1) (by omega)]
    have hcast : ((n - 1 : ℕ) : ℝ) = (n : ℝ) - 1 := by
      have h1 : 1 ≤ n := by omega
      rw [Nat.cast_sub h1, Nat.cast_one]
    rw [hcast, mul_div_assoc, div_self hne, mul_one]
  · intro i hi
    rw [single_pulse_time_length] at hi
    rw [single_pulse_time_getD V0 R C t_max n (i + 1) hi,
      single_pulse_time_getD V0 R C t_max n i (by omega)]
    push_cast
    field_simp
    ring
  · intro i hi
    rw [single_pulse_time_length] at hi
    exact single_pulse_voltage_getD V0 R C t_max n i hi

/-- Witness for C1 at `V0 = 5`, `R = 1`, `C = 1`, `t_max = 1`, `n = 3`. -/
theorem single_pulse_spec_witness :
    ((0 : ℝ) < 1 ∧ 2 ≤ 3) ∧ (single_pulse 5 1 1 1 3).1.length = 3 :=
  ⟨⟨by norm_num, by norm_num⟩,
    (single_pulse_spec 5 1 1 1 3 (by norm_num) (by norm_num) (by norm_num)
      (by norm_num)).1⟩

/-- C6: for `V0>0`, `R>0`, `C>0` (and a valid sampling window) the voltage
sequence returned by `single_pulse` is strictly decreasing, its first element
equals `V0` and its last element is strictly positive. -/
theorem single_pulse_decay (V0 R C t_max : ℝ) (n : ℕ)
    (hV0 : 0 < V0) (hR : 0 < R) (hC : 0 < C) (ht : 0 < t_max) (hn : 2 ≤ n) :
    strictDecr (single_pulse V0 R C t_max n).2 ∧
    (single_pulse V0 R C t_max n).2.getD 0 0 = V0 ∧
    0 < (single_pulse V0 R C t_max n).2.getD (n - 1) 0 := by
  have htau : 0 < R * C := mul_pos hR hC
  have hden : (0 : ℝ) < (n : ℝ) - 1 := cast_n_sub_one_pos hn
  refine ⟨?_, ?_, ?_⟩
  · intro i hi
    rw [single_pulse_voltage_length] at hi
    rw [single_pulse_voltage_getD V0 R C t_max n (i + 1) hi,
      single_pulse_voltage_getD V0 R C t_max n i (by omega),
      single_pulse_time_getD V0 R C t_max n (i + 1) hi,
      single_pulse_time_getD V0 R C t_max n i (by omega)]
    have hstep : t_max * (i : ℝ) / ((n : ℝ) - 1) <
        t_max * ((i : ℝ) + 1) / ((n : ℝ) - 1) := by
      rw [div_lt_div_iff_of_pos_right hden]
      nlinarith
    push_cast
    apply mul_lt_mul_of_pos_left _ hV0
    rw [Real.exp_lt_exp]
    rw [neg_div, neg_div, neg_lt_neg_iff, div_lt_div_iff_of_pos_right htau]
    push_cast at hstep
    exact hstep
  · rw [single_pulse_voltage_getD V0 R C t_max n 0 (by omega),
      single_pulse_time_getD V0 R C t_max n 0 (by omega)]
    simp
  · rw [single_pulse_voltage_getD V0 R C t_max n (n - 1) (by omega)]
    exact mul_pos hV0 (Real.exp_pos _)

/-- Witness for C6 at `V0 = 5`, `R = 1`, `C = 1`, `t_max = 1`, `n = 3`. -/
theorem single_pulse_decay_witness :
    ((0 : ℝ) < 5 ∧ (0 : ℝ) < 1 ∧ 2 ≤ 3) ∧
      (single_pulse 5 1 1 1 3).2.getD 0 0 = 5 :=
  ⟨⟨by norm_num, by norm_num, by norm_num⟩,
    (single_pulse_decay 5 1 1 1 3 (by norm_num) (by norm_num) (by norm_num)
      (by norm_num) (by norm_num)).2.1⟩

/-- C3: `adaptive_feedback(V0_target, R, C, V_min)` with `V_min ≥ 0` returns
exactly `max(V0_target, V_min * e)`; the result never falls below `V0_target`,
and it does not depend on `R` or `C`. -/
theorem adaptive_feedback_spec (V0_target R C V_min : ℝ) (hVm : 0 ≤ V_min) :
    adaptive_feedback V0_target R C V_min = max V0_target (V_min * Real.exp 1) ∧
    V0_target ≤ adaptive_feedback V0_target R C V_min ∧
    ∀ R' C' : ℝ, adaptive_feedback V0_target R' C' V_min =
      adaptive_feedback V0_target R C V_min := by
  refine ⟨rfl, le_max_left _ _, fun R' C' => rfl⟩

/-- Witness for C3 at `V0_target = 2`, `R = 500`, `C = 0.00002`, `V_min = 1`:
the hypothesis `0 ≤ 1` holds and the closed form is obtained. -/
theorem adaptive_feedback_spec_witness :
    (0:ℝ) ≤ 1 ∧ adaptive_feedback 2 500 0.00002 1 = max 2 (1 * Real.exp 1) :=
  ⟨by norm_num, (adaptive_feedback_spec 2 500 0.00002 1 (by norm_num)).1⟩

/-- C7: `adaptive_feedback` is idempotent in its first argument, and its
result is always at least the requested `V0_target`. -/
theorem adaptive_feedback_idem (x R C V_min : ℝ) :
    adaptive_feedback (adaptive_feedback x R C V_min) R C V_min =
      adaptive_feedback x R C V_min ∧
    x ≤ adaptive_feedback x R C V_min := by
  constructor
  · show max (max x (V_min * Real.exp 1)) (V_min * Real.exp 1) =
      max x (V_min * Real.exp 1)
    rw [max_assoc, max_self]
  · exact le_max_left _ _

theorem range_map_getD {α : Type _} (f : ℕ → α) (n i : ℕ) (d : α) (h : i < n) :
    ((List.range n).map f).getD i d = f i := by
  have hl : i < ((List.range n).map f).length := by
    rw [List.length_map, List.length_range]
    exact h
  rw [List.getD_eq_getElem _ _ hl, List.getElem_map, List.getElem_range]

/-- C4: with `num_beats = N ≥ 1`, `simulate_multiple_beats` returns exactly
`N` beat-boundary records, the `i`-th being the half-open range
`[200·i, 200·i + 200)` — all of width 200, contiguous, non-overlapping and
covering `[0, N·200)` — and the four sample sequences all have length
`N · 200`. -/
theorem simulate_shape (V0u Rb C : ℝ) (N : ℕ) (interval : ℝ) (fb : Bool)
    (Vm : ℝ) (arr : Bool) (Rmin Rmax : ℝ) (rng : ℕ → ℝ) (hN : 1 ≤ N) :
    boundariesAre (simulate_multiple_beats V0u Rb C N interval fb Vm arr Rmin
      Rmax rng).beat_boundaries 200 N ∧
    (simulate_multiple_beats V0u Rb C N interval fb Vm arr Rmin Rmax
      rng).t_total.length = N * 200 ∧
    (simulate_multiple_beats V0u Rb C N interval fb Vm arr Rmin Rmax
      rng).V_total.length = N * 200 ∧
    (simulate_multiple_beats V0u Rb C N interval fb Vm arr Rmin Rmax
      rng).R_values.length = N * 200 ∧
    (simulate_multiple_beats V0u Rb C N interval fb Vm arr Rmin Rmax
      rng).V0_used.length = N * 200 := by
  refine ⟨⟨?_, ?_⟩, ?_, ?_, ?_, ?_⟩
  · show (runBeats V0u Rb C interval fb Vm arr rng N).beat_boundaries.length = N
    rw [runBeats_boundaries, List.length_map, List.length_range]
  · intro i hi
    show (runBeats V0u Rb C interval fb Vm arr rng N).beat_boundaries.getD
      i (0, 0) = (200 * i, 200 * i + 200)
    rw [runBeats_boundaries, range_map_getD _ _ _ _ hi]
  · show (runBeats V0u Rb C interval fb Vm arr rng N).t_global.flatten.length
      = N * 200
    rw [runBeats_t_flatten_length, Nat.mul_comm]
  · show (runBeats V0u Rb C interval fb Vm arr rng N).V_global.flatten.length
      = N * 200
    rw [runBeats_V_flatten_length, Nat.mul_comm]
  · show (runBeats V0u Rb C interval fb Vm arr rng N).R_values.length = N * 200
    rw [runBeats_R_length, Nat.mul_comm]
  · show (runBeats V0u Rb C interval fb Vm arr rng N).V0_used.length = N * 200
    rw [runBeats_V0_length, Nat.mul_comm]

/-- Witness for C4 at `num_beats = 2` and otherwise the spec's concrete
scenario parameters. -/
theorem simulate_shape_witness :
    1 ≤ 2 ∧ boundariesAre (simulate_multiple_beats 5 500 0.00002 2 1 false 1
      false 300 1000 (fun k => 0)).beat_boundaries 200 2 :=
  ⟨by norm_num, (simulate_shape 5 500 0.00002 2 1 false 1 false 300 1000
    (fun k => 0) (by norm_num)).1⟩

/-- C5: for every beat index `i < num_beats` and `interval ≥ 0`, the first
time sample of beat `i` (global sample `200·i`) equals `i · interval`. -/
theorem simulate_first_samples (V0u Rb C : ℝ) (N : ℕ) (interval : ℝ)
    (fb : Bool) (Vm : ℝ) (arr : Bool) (Rmin Rmax : ℝ) (rng : ℕ → ℝ)
    (hint : 0 ≤ interval) :
    firstSamplesAt (simulate_multiple_beats V0u Rb C N interval fb Vm arr Rmin
      Rmax rng).t_total 200 N interval := by
  intro i hi
  show (runBeats V0u Rb C interval fb Vm arr rng N).t_global.flatten.getD
    (200 * i) 0 = i * interval
  exact runBeats_t_first V0u Rb C interval fb Vm arr rng N i hi

/-- Witness for C5 at three beats with `interval = 1`. -/
theorem simulate_first_samples_witness :
    (0 : ℝ) ≤ 1 ∧ firstSamplesAt (simulate_multiple_beats 5 500 0.00002 3 1
      false 1 false 300 1000 (fun k => 0)).t_total 200 3 1 :=
  ⟨by norm_num, simulate_first_samples 5 500 0.00002 3 1 false 1 false 300
    1000 (fun k => 0) (by norm_num)⟩

/-- C8: with `use_feedback=True` every applied V0 is at least `V_min · e`;
with `use_feedback=False` every applied V0 equals `V0_user`; with
`arrhythmia_mode=False` every resistance sample equals `R_base`. -/
theorem simulate_levels (V0u Rb C : ℝ) (N : ℕ) (interval : ℝ) (fb arr : Bool)
    (Vm Rmin Rmax : ℝ) (rng : ℕ → ℝ) :
    allGE (simulate_multiple_beats V0u Rb C N interval true Vm arr Rmin Rmax
      rng).V0_used (Vm * Real.exp 1) ∧
    allEq (simulate_multiple_beats V0u Rb C N interval false Vm arr Rmin Rmax
      rng).V0_used V0u ∧
    allEq (simulate_multiple_beats V0u Rb C N interval fb Vm false Rmin Rmax
      rng).R_values Rb :=
  ⟨runBeats_V0_ge V0u Rb C interval Vm arr rng N,
   runBeats_V0_eq V0u Rb C interval Vm arr rng N,
   runBeats_R_eq V0u Rb C interval fb Vm rng N⟩

/-- C9: with `arrhythmia_mode=False` the simulation is deterministic — the
result does not depend on the random source at all, so two calls with
identical arguments agree on every returned sequence. -/
theorem simulate_deterministic (V0u Rb C : ℝ) (N : ℕ) (interval : ℝ)
    (fb : Bool) (Vm Rmin Rmax : ℝ) (rng1 rng2 : ℕ → ℝ) :
    simulate_multiple_beats V0u Rb C N interval fb Vm false Rmin Rmax rng1 =
      simulate_multiple_beats V0u Rb C N interval fb Vm false Rmin Rmax rng2 := by
  simp only [simulate_multiple_beats,
    runBeats_rng_irrel V0u Rb C interval fb Vm rng1 rng2 N]

/-- C2 counterexample: at `R = 0` (violating `R > 0`) `single_pulse` returns
normally instead of raising `InvalidParameter`; and at `num_beats = 0`
(violating `num_beats ≥ 1`) `simulate_multiple_beats` raises numpy's
`ValueError` after the loop, not `InvalidParameter`. -/
theorem no_invalid_parameter_cex :
    single_pulse_run 5 0 1 0.05 200 ≠
      Except.error PacemakerError.invalidParameter ∧
    simulate_multiple_beats_run 5 500 0.00002 0 1 false 1 false 300 1000
      (fun k => 0) ≠ Except.error PacemakerError.invalidParameter := by
  constructor
  · intro h
    exact Except.noConfusion h
  · intro h
    simp [simulate_multiple_beats_run] at h

/-- C2 (amended): the model performs no precondition validation and never
raises `InvalidParameter`.  `single_pulse` returns normally on every input,
including `R ≤ 0` or `C ≤ 0`; `simulate_multiple_beats` returns normally
exactly when `num_beats ≠ 0`, its only raising path being numpy's
`ValueError` on `num_beats = 0`, raised after the loop rather than before
any computation. -/
theorem no_validation (V0 R C t_max : ℝ) (n : ℕ) (V0u Rb Cc : ℝ) (N : ℕ)
    (interval : ℝ) (fb : Bool) (Vm : ℝ) (arr : Bool) (Rmin Rmax : ℝ)
    (rng : ℕ → ℝ) :
    exceptOk (single_pulse_run V0 R C t_max n) = true ∧
    exceptOk (simulate_multiple_beats_run V0u Rb Cc N interval fb Vm arr Rmin
      Rmax rng) = decide (N ≠ 0) ∧
    simulate_multiple_beats_run V0u Rb Cc N interval fb Vm arr Rmin Rmax rng ≠
      Except.error PacemakerError.invalidParameter := by
  refine ⟨rfl, ?_, ?_⟩
  · by_cases hN : N = 0
    · subst hN
      simp [simulate_multiple_beats_run, exceptOk]
    · simp [simulate_multiple_beats_run, exceptOk, hN]
  · by_cases hN : N = 0
    · subst hN
      simp [simulate_multiple_beats_run]
    · simp [simulate_multiple_beats_run, hN]

/-- C10: the fields of the record returned by `validate_parameters` satisfy:
`is_effective` iff `V0·e⁻¹ ≥ V_min`, `is_safe` iff `V0 ≤ 15`, `is_duration_ok`
iff `0.5 ≤ 3·R·C·1000 ≤ 2.0`, and `overall_valid` iff all three hold. -/
theorem validate_parameters_spec (V0 R C V_min : ℝ) :
    ((validate_parameters V0 R C V_min).is_effective ↔
      V0 * Real.exp (-1) ≥ V_min) ∧
    ((validate_parameters V0 R C V_min).is_safe ↔ V0 ≤ 15.0) ∧
    ((validate_parameters V0 R C V_min).is_duration_ok ↔
      0.5 ≤ 3 * (R * C) * 1000 ∧ 3 * (R * C) * 1000 ≤ 2.0) ∧
    ((validate_parameters V0 R C V_min).overall_valid ↔
      ((validate_parameters V0 R C V_min).is_effective ∧
       (validate_parameters V0 R C V_min).is_safe ∧
       (validate_parameters V0 R C V_min).is_duration_ok)) := by
  exact ⟨Iff.rfl, Iff.rfl, Iff.rfl, Iff.rfl⟩

end Pacemaker
